import Mathlib

/-!
Shallow embedding of the leads-unifier engine (src/leads-unifier.py) and
verification of its specification claims.

Cell values read from a CSV are modelled as `Option String`: `none` stands
for an absent value (pandas NaN), `some s` for the string `s`.  Python
string operations are modelled on `List Char` at the ASCII level (the
inputs the engine is specified over); floating-point scores are modelled
exactly over `ℚ`.
-/

namespace LeadsUnifier

/-! ## Python string primitives -/

/-- Python whitespace characters (`str.isspace`, `\s`, `str.strip`, `str.split`). -/
def pyIsSpace (c : Char) : Bool :=
  c = ' ' || c = '\t' || c = '\n' || c = '\r' || c = '\x0b' || c = '\x0c'

/-- Python `str.lower`, ASCII fragment: uppercase letters map to lowercase. -/
def pyToLower (c : Char) : Char :=
  if 'A' ≤ c ∧ c ≤ 'Z' then Char.ofNat (c.toNat + 32) else c

/-- Python `str.lower` over a character list. -/
def pyLower (cs : List Char) : List Char := cs.map pyToLower

/-- Python `str.strip`: drop leading and trailing whitespace. -/
def pyStrip (cs : List Char) : List Char :=
  (cs.dropWhile pyIsSpace).rdropWhile pyIsSpace

/-- Python `str.split()` with no argument: whitespace-separated tokens,
empty chunks discarded. -/
def pySplit (cs : List Char) : List (List Char) :=
  (cs.splitOnP pyIsSpace).filter (fun w => !w.isEmpty)

/-- Python substring test `p in s`. -/
def isSubstr (p s : List Char) : Bool :=
  (List.range (s.length + 1)).any (fun i => p.isPrefixOf (s.drop i))

/-! ## Data model -/

/-- One canonical contact row of the unification pipeline
(the three standardized columns of `contacts_df`). -/
structure ContactRecord where
  name : Option String
  email : Option String
  phone : Option String
deriving DecidableEq, Repr

/-- One loaded CSV file (`pd.read_csv(..., dtype=str)`): named columns of
string-or-absent cells, in file order. -/
structure Table where
  cols : List (String × List (Option String))
deriving Repr

/-! ## Value normalizers (`normalize_phone`, `normalize_email`, lines 182-206) -/

/-- `normalize_phone` (lines 182-199): keep the digit characters; accept only a
digit count in [8,15]; preserve a leading `+`. -/
def normalize_phone : Option String → Option String
  | none => none
  | some s =>
    let digits := s.data.filter Char.isDigit
    if digits.length < 8 || digits.length > 15 then none
    else if s.data.head? = some '+' then some ⟨'+' :: digits⟩
    else some ⟨digits⟩

/-- `normalize_email` (lines 201-206): lowercase, strip, require `@`. -/
def normalize_email : Option String → Option String
  | none => none
  | some s =>
    let e := pyStrip (pyLower s.data)
    if '@' ∈ e then some ⟨e⟩ else none

/-! ## Name content heuristic (`is_likely_name`, lines 35-84)

The source also computes a diacritic-stripped NFKD form of the value but
never uses it (a dead computation); all measurements are taken on the
original stripped string, which is what is embedded here. -/

/-- `is_likely_name` (lines 35-84): heuristic classification of a cell value
as a person name. -/
def is_likely_name : Option String → Bool
  | none => false
  | some s =>
    let vs := pyStrip s.data
    if vs.isEmpty then false
    else
      let words := pySplit vs
      let wordCount := words.length
      if wordCount > 6 || wordCount < 1 then false
      else
        let totalChars := vs.length
        if totalChars < 2 then false
        else
          let alphaCount := vs.countP (fun c => c.isAlpha || pyIsSpace c)
          let digitCount := vs.countP Char.isDigit
          let specialCount := totalChars - alphaCount - digitCount
          let alphaFrac : ℚ := (alphaCount : ℚ) / (totalChars : ℚ)
          if alphaFrac < 7/10 then false
          else if digitCount > 0 then false
          else
            let properlyCapitalized :=
              words.all (fun w => match w with | c :: _ => c.isUpper | [] => true)
            let score : ℚ :=
              alphaFrac * 5 + (if properlyCapitalized then 2 else 0)
                + (if 2 ≤ wordCount ∧ wordCount ≤ 4 then 1 else 0)
                - (specialCount : ℚ) * (1/2)
            decide (score > 7/2)

/-! ## Name column-name heuristic (`analyze_column_names`, lines 86-128) -/

/-- The `name_patterns` dictionary (lines 91-108).  The Python literal repeats
some keys across languages (`name`, `nome`, `nome completo`) with identical
weights; later duplicates overwrite earlier ones with the same value, so the
resulting dictionary is this list with first-occurrence order. -/
def name_patterns : List (String × ℚ) :=
  [("name", 5), ("full name", 5), ("full_name", 5), ("firstname", 4), ("lastname", 4),
   ("first name", 4), ("last name", 4), ("customer name", 4),
   ("nome", 5), ("nomes", 5), ("nome completo", 5), ("nome_completo", 5),
   ("nombre", 5), ("nombres", 5), ("nombre completo", 5), ("apellido", 4),
   ("nom", 5), ("prénom", 4), ("prenom", 4), ("nom complet", 5),
   ("vorname", 4), ("nachname", 4), ("vollständiger name", 5),
   ("cognome", 4),
   ("contact", 3), ("customer", 3), ("client", 3), ("pessoa", 3), ("person", 3),
   ("usuario", 3), ("user", 3), ("lead", 3)]

/-- `analyze_column_names` (lines 86-128): score column headers against the
name dictionary; exact matches take the dictionary weight, substring matches
take the maximal matching weight less one; only positive scores are recorded,
in column order. -/
def analyze_column_names (columns : List String) : List (String × ℚ) :=
  columns.foldl (fun scored col =>
    let colLower := pyStrip (pyLower col.data)
    match name_patterns.find? (fun pw => pw.1.data = colLower) with
    | some pw => scored ++ [(col, pw.2)]
    | none =>
      let score := name_patterns.foldl
        (fun m pw => if isSubstr pw.1.data colLower then max m (pw.2 - 1) else m) 0
      if score > 0 then scored ++ [(col, score)] else scored) []

/-! ## Name column selection (`find_name_column`, lines 130-153) -/

/-- Python's `max(items, key=value)`: the first element carrying the maximal
value (later elements replace the current best only when strictly greater). -/
def maxByFirst : List (String × ℚ) → Option (String × ℚ)
  | [] => none
  | x :: xs => some (xs.foldl (fun best y => if y.2 > best.2 then y else best) x)

/-- The `name_scores` mapping built by `find_name_column` (lines 134-145):
dictionary scores first, then content scores for columns not already scored
(up to 100 non-absent sampled values, content score `3 × ratio` when more
than 70% of the sample passes `is_likely_name`).  Insertion order: dictionary-
scored columns in column order, then content-scored columns in column order. -/
def nameScores (t : Table) : List (String × ℚ) :=
  t.cols.foldl (fun scored colPair =>
    if scored.any (fun p => p.1 = colPair.1) then scored
    else
      let sample := (colPair.2.filterMap id).take 100
      if sample.length > 0 then
        let nameLikeFrac : ℚ :=
          (sample.countP (fun v => is_likely_name (some v)) : ℚ) / (sample.length : ℚ)
        if nameLikeFrac > 7/10 then scored ++ [(colPair.1, 3 * nameLikeFrac)] else scored
      else scored)
    (analyze_column_names (t.cols.map (fun p => p.1)))

/-- `find_name_column` (lines 130-153): the first maximally scored column of
`name_scores`, or `none` when no column is scored. -/
def find_name_column (t : Table) : Option String :=
  (maxByFirst (nameScores t)).map (fun p => p.1)

/-! ## Phone content heuristic (`is_likely_phone`, lines 155-180)

The four regular expressions of the source are embedded as decidable
matchers; `re.search` semantics is existence of a match at some position. -/

/-- The character class `[\s\-\.\(\)\[\]\{\}]` removed by the separator-stripping
`re.sub` (line 165). -/
def sepStripClass (c : Char) : Bool :=
  pyIsSpace c || c = '-' || c = '.' || c = '(' || c = ')'
    || c = '[' || c = ']' || c = '\x7b' || c = '\x7d'

/-- The separator class `[\s\-\.]` used between digit groups. -/
def sepDash (c : Char) : Bool := pyIsSpace c || c = '-' || c = '.'

/-- Consume exactly `n` digit characters, returning the remainder. -/
def chompDigits : Nat → List Char → Option (List Char)
  | 0, l => some l
  | n + 1, c :: l => if c.isDigit then chompDigits n l else none
  | _ + 1, [] => none

/-- The two continuations of an optional `[\s\-\.]?`: consume one separator or
consume nothing. -/
def optSep (l : List Char) : List (List Char) :=
  match l with
  | c :: r => if sepDash c then [l, r] else [l]
  | [] => [l]

/-- `^\+?[\d\s\-\.\(\)\[\]\{\}]{8,}$`: optional leading `+`, then at least 8
characters drawn from digits and separators, to the end of the string. -/
def patGeneral (cs : List Char) : Bool :=
  let body := fun (l : List Char) =>
    decide (l.length ≥ 8) && l.all (fun c => c.isDigit || sepStripClass c)
  (match cs with | '+' :: r => body r | _ => false) || body cs

/-- Match of `\d{3}[\s\-\.]?\d{3}[\s\-\.]?\d{4}` anchored at the current position. -/
def patNanpAt (cs : List Char) : Bool :=
  match chompDigits 3 cs with
  | none => false
  | some r1 => (optSep r1).any (fun r2 =>
      match chompDigits 3 r2 with
      | none => false
      | some r3 => (optSep r3).any (fun r4 => (chompDigits 4 r4).isSome))

/-- Match of `\+\d{1,3}[\s\-\.]?\d+` anchored at the current position. -/
def patIntlAt (cs : List Char) : Bool :=
  match cs with
  | '+' :: r =>
    [1, 2, 3].any (fun k =>
      match chompDigits k r with
      | none => false
      | some r2 => (optSep r2).any (fun r3 =>
          match r3 with | c :: _ => c.isDigit | [] => false))
  | _ => false

/-- Match of `\(\d{3}\)[\s\-\.]?\d{3}[\s\-\.]?\d{4}` anchored at the current
position. -/
def patParenAt (cs : List Char) : Bool :=
  match cs with
  | '(' :: r =>
    match chompDigits 3 r with
    | some (')' :: r2) => (optSep r2).any (fun r3 =>
        match chompDigits 3 r3 with
        | some r4 => (optSep r4).any (fun r5 => (chompDigits 4 r5).isSome)
        | none => false)
    | _ => false
  | _ => false

/-- `re.search`: the anchored matcher succeeds at some position of the string. -/
def searchAny (p : List Char → Bool) (cs : List Char) : Bool :=
  cs.tails.any p

/-- `is_likely_phone` (lines 155-180): strip common separators, require a digit
count in [8,15], and require one of the four phone shapes to occur in the raw
value. -/
def is_likely_phone : Option String → Bool
  | none => false
  | some s =>
    let cleaned := s.data.filter (fun c => !sepStripClass c)
    let digitCount := cleaned.countP Char.isDigit
    if digitCount > 15 || digitCount < 8 then false
    else patGeneral s.data || searchAny patNanpAt s.data
      || searchAny patIntlAt s.data || searchAny patParenAt s.data

/-! ## Simple column selector (`find_column`, lines 208-255) -/

inductive FieldType | name | email | phone
deriving DecidableEq, Repr

/-- The `column_patterns` lists of `find_column` (lines 213-217). -/
def column_patterns : FieldType → List String
  | .name => ["name", "full name", "contact", "customer", "lead", "person", "cliente", "nombre"]
  | .email => ["email", "e-mail", "mail", "correo", "e_mail", "e mail", "correio"]
  | .phone => ["phone", "telephone", "mobile", "cell", "contact", "tel", "telefono",
               "number", "celular", "fone", "telefone"]

/-- The dict comprehension `{col.lower(): col for col in df.columns}` (line 220):
an association list keyed by the lowercased header, first-insertion position,
later duplicates overwriting the stored original header. -/
def lowerMap (columns : List String) : List (String × String) :=
  columns.foldl (fun acc col =>
    let k := pyLower col.data
    if acc.any (fun p => p.1.data = k) then
      acc.map (fun p => if p.1.data = k then (p.1, col) else p)
    else acc ++ [(⟨k⟩, col)]) []

/-- `find_column` (lines 208-255): exact dictionary match first, then substring
match, then a content fallback (for email: more than 50% of the non-absent
values contain `@`; for phone: more than 70% contain a digit). -/
def find_column (t : Table) (ft : FieldType) : Option String :=
  let cl := lowerMap (t.cols.map (fun p => p.1))
  match (column_patterns ft).find? (fun pat => cl.any (fun p => p.1 = pat)) with
  | some pat => (cl.find? (fun p => p.1 = pat)).map (fun p => p.2)
  | none =>
    match cl.find? (fun p => (column_patterns ft).any (fun pat => isSubstr pat.data p.1.data)) with
    | some p => some p.2
    | none =>
      match ft with
      | .email =>
        (t.cols.find? (fun colPair =>
          let sample := colPair.2.filterMap id
          decide (sample.length > 0) &&
            decide ((sample.countP (fun v => '@' ∈ v.data) : ℚ) / (sample.length : ℚ) > 1/2))).map
          (fun p => p.1)
      | .phone =>
        (t.cols.find? (fun colPair =>
          let sample := colPair.2.filterMap id
          decide (sample.length > 0) &&
            decide ((sample.countP (fun v => v.data.any Char.isDigit) : ℚ) / (sample.length : ℚ)
              > 7/10))).map
          (fun p => p.1)
      | .name => none

/-! ## Phone column ranking (`find_phone_columns`, lines 257-314) -/

/-- The `phone_patterns` dictionary (lines 262-277).  The Python literal repeats
some keys across languages (`mobile`, `celular`, `telefono`, `contact`, `tel`)
with identical weights; duplicates overwrite identically, leaving this list in
first-occurrence order. -/
def phone_patterns : List (String × ℚ) :=
  [("phone", 5), ("telephone", 5), ("mobile", 5), ("cell", 5), ("contact", 3),
   ("telefone", 5), ("celular", 5), ("fone", 5), ("tel", 4),
   ("telefono", 5), ("movil", 5),
   ("téléphone", 5), ("portable", 5),
   ("telefon", 5), ("handy", 5), ("mobiltelefon", 5),
   ("cellulare", 5),
   ("number", 3), ("phone number", 4)]

/-- Header-based part of the phone column score (lines 287-291): each pattern
adds its weight on an exact match of the lowercased header, else its weight
less one on a substring match. -/
def phoneNameScore (colLower : List Char) : ℚ :=
  phone_patterns.foldl (fun score pw =>
    if pw.1.data = colLower then score + pw.2
    else if isSubstr pw.1.data colLower then score + (pw.2 - 1)
    else score) 0

/-- Mean of the sampled value lengths, over `ℚ`. -/
def lengthsMean (sample : List String) : ℚ :=
  ((sample.map (fun v => (v.data.length : ℚ))).sum) / (sample.length : ℚ)

/-- Sample variance (`pandas .std()`, `ddof = 1`) of the value lengths, over
`ℚ`; meaningful only for two or more values. -/
def lengthsVar (sample : List String) : ℚ :=
  ((sample.map (fun v => ((v.data.length : ℚ) - lengthsMean sample) ^ 2)).sum)
    / ((sample.length : ℚ) - 1)

/-- Content-based part of the phone column score (lines 293-304): 4× the
fraction of non-absent values classified phone-like, plus a consistency bonus
when the value lengths have standard deviation below 2 and mean in [8,15].
`std < 2` is expressed as `variance < 4`; on a single value pandas yields a
NaN standard deviation, whose comparison is false, hence the `2 ≤ n` guard. -/
def phoneContentScore (cells : List (Option String)) : ℚ :=
  let sample := cells.filterMap id
  if sample.length > 0 then
    let phoneLikeFrac : ℚ :=
      (sample.countP (fun v => is_likely_phone (some v)) : ℚ) / (sample.length : ℚ)
    phoneLikeFrac * 4 +
      (if 2 ≤ sample.length ∧ lengthsVar sample < 4
          ∧ 8 ≤ lengthsMean sample ∧ lengthsMean sample ≤ 15 then 1 else 0)
  else 0

/-- Total score of one column for the phone field (lines 282-304). -/
def phoneColScore (col : String) (cells : List (Option String)) : ℚ :=
  phoneNameScore (pyLower col.data) + phoneContentScore cells

/-- The positively scored phone candidates in column order (lines 279-307). -/
def phoneScored (t : Table) : List (String × ℚ) :=
  t.cols.foldl (fun acc colPair =>
    if phoneColScore colPair.1 colPair.2 > 0 then
      acc ++ [(colPair.1, phoneColScore colPair.1 colPair.2)]
    else acc) []

/-- `find_phone_columns` (lines 257-314): all positively scored candidate
columns, sorted by score descending (Python's stable sort, modelled by a
stable insertion sort). -/
def find_phone_columns (t : Table) : List String :=
  (List.insertionSort (fun a b : String × ℚ => b.2 ≤ a.2) (phoneScored t)).map (fun p => p.1)

/-! ## Record merger (`merge_phone_numbers`, lines 316-329) -/

/-- `merge_phone_numbers` (lines 316-329): collect the successful
normalizations of the candidate columns' cells in candidate order and return
the first (the `if normalized:` truthiness test also rejects an empty
string).  A row is modelled as a map from column name to cell value. -/
def mergeStep (row : String → Option String) (phones : List String) (col : String) :
    List String :=
  match row col with
  | none => phones
  | some v =>
    match normalize_phone (some v) with
    | some p => if p.data.isEmpty then phones else phones ++ [p]
    | none => phones

def merge_phone_numbers (row : String → Option String) (phone_cols : List String) :
    Option String :=
  (phone_cols.foldl (mergeStep row) []).head?

/-! ## Unification pipeline (`process_csvs`, lines 331-448) -/

/-- Cell lookup: the value of column `c` at row index `i` (absent when the
column does not exist or the row index is out of range). -/
def Table.cell (t : Table) (c : String) (i : Nat) : Option String :=
  ((t.cols.find? (fun p => p.1 = c)).bind (fun p => p.2.get? i)).join

/-- Number of rows of the table (all columns have equal length). -/
def Table.nRows (t : Table) : Nat :=
  match t.cols with
  | [] => 0
  | colPair :: _ => colPair.2.length

/-- Name extraction for one cell (line 382): `fillna('')`, strip, and turn an
empty result into an absent value. -/
def stripOrNone (v : Option String) : Option String :=
  let s := pyStrip (v.getD "").data
  if s.isEmpty then none else some ⟨s⟩

/-- The `replace('', None)` step (line 398) applied to one field. -/
def emptyToNone (v : Option String) : Option String :=
  match v with
  | some s => if s.data.isEmpty then none else some s
  | none => none

/-- Per-file extraction (lines 360-399): select columns, build one canonical
record per row, replace empty strings by absent, and drop the rows whose three
fields are all absent (`dropna(how='all')`). -/
def processFile (t : Table) : List ContactRecord :=
  let name_col := find_name_column t
  let email_col := find_column t FieldType.email
  let phone_cols := find_phone_columns t
  ((List.range t.nRows).map (fun i =>
    let raw : ContactRecord :=
      { name := match name_col with
          | some c => stripOrNone (t.cell c i)
          | none => none
        email := match email_col with
          | some c => normalize_email (t.cell c i)
          | none => none
        phone := if phone_cols.isEmpty then none
          else merge_phone_numbers (fun c => t.cell c i) phone_cols }
    { name := emptyToNone raw.name
      email := emptyToNone raw.email
      phone := emptyToNone raw.phone })).filter
    (fun r => r.name.isSome || r.email.isSome || r.phone.isSome)

/-- The accumulated global contact set (lines 344-404): per-file records
appended in file order. -/
def allContacts (tables : List Table) : List ContactRecord :=
  (tables.map processFile).flatten

/-- Completeness of a record (line 415): the number of non-absent fields. -/
def completeness (r : ContactRecord) : Nat :=
  (if r.name.isSome then 1 else 0) + (if r.email.isSome then 1 else 0)
    + (if r.phone.isSome then 1 else 0)

/-- The completeness sort (line 416): descending by completeness, modelled by
a stable insertion sort. -/
def sortByCompleteness (l : List ContactRecord) : List ContactRecord :=
  List.insertionSort (fun a b => completeness b ≤ completeness a) l

/-- `drop_duplicates(subset=[k], keep='first')` (lines 419-420): keep a record
when its key has not occurred before.  pandas compares the key values with
NaN equal to NaN, which is exactly equality of `Option String`. -/
def dropDupByKeyAux (key : ContactRecord → Option String) :
    List (Option String) → List ContactRecord → List ContactRecord
  | _, [] => []
  | seen, r :: rs =>
    if key r ∈ seen then dropDupByKeyAux key seen rs
    else r :: dropDupByKeyAux key (key r :: seen) rs

/-- First-occurrence deduplication by a key. -/
def dropDupByKey (key : ContactRecord → Option String) (l : List ContactRecord) :
    List ContactRecord :=
  dropDupByKeyAux key [] l

/-- The email deduplication pass (line 419), applied to the completeness-sorted
contact set. -/
def emailPass (l : List ContactRecord) : List ContactRecord :=
  dropDupByKey (fun r => r.email) (sortByCompleteness l)

/-- Both deduplication passes (lines 414-420): sort by completeness descending,
deduplicate by email, then deduplicate the result again by phone. -/
def dedupContacts (l : List ContactRecord) : List ContactRecord :=
  dropDupByKey (fun r => r.phone) (emailPass l)

/-- `process_csvs` (lines 331-448) at the engine level: with no input files the
run reports the no-input condition and returns without producing output
(`none`); otherwise the accumulated contact set is deduplicated and written
(`some`). -/
def process_csvs (tables : List Table) : Option (List ContactRecord) :=
  if tables.isEmpty then none
  else some (dedupContacts (allContacts tables))

/-! ## Spec-side definitions

These definitions follow the wording of the specification's claims (not the
source) and are used to state refinement-style theorems and
counterexamples. -/

/-- Count of letter-or-space characters of a value (the claim's
letter-space numerator). -/
def letterSpaceCount (cs : List Char) : Nat :=
  cs.countP (fun c => c.isAlpha || pyIsSpace c)

/-- Count of digit characters of a value. -/
def digitCharCount (cs : List Char) : Nat :=
  cs.countP Char.isDigit

/-- Count of characters that are neither letter, space, nor digit (the
claim's special-character penalty count). -/
def neitherCount (cs : List Char) : Nat :=
  cs.countP (fun c => !(c.isAlpha || pyIsSpace c || c.isDigit))

/-- Whitespace-separated token count of a value. -/
def tokenCount (cs : List Char) : Nat :=
  (pySplit cs).length

/-- All tokens start with an uppercase letter. -/
def allTokensCapitalized (cs : List Char) : Bool :=
  (pySplit cs).all (fun w => match w with | c :: _ => c.isUpper | [] => true)

/-- The claim's composite name score:
`5 × letterSpaceRatio + 2 × [all tokens capitalized] + 1 × [2 ≤ tokens ≤ 4]
− 0.5 × neitherCount`, measured on the stripped value. -/
def nameHeuristicScore (s : String) : ℚ :=
  let vs := pyStrip s.data
  5 * ((letterSpaceCount vs : ℚ) / (vs.length : ℚ))
    + (if allTokensCapitalized vs then 2 else 0)
    + (if 2 ≤ tokenCount vs ∧ tokenCount vs ≤ 4 then 1 else 0)
    - (1/2) * (neitherCount vs : ℚ)

/-- `m` is the first maximally scored entry of the scored-column list `L`:
every entry before it scores strictly less, every entry after it scores no
more. -/
def FirstMax (L : List (String × ℚ)) (m : String × ℚ) : Prop :=
  ∃ l₁ l₂, L = l₁ ++ m :: l₂ ∧ (∀ p ∈ l₁, p.2 < m.2) ∧ (∀ p ∈ l₂, p.2 ≤ m.2)

/-! ## Concrete fixtures used by counterexamples and witnesses -/

/-- Two distinct contacts both lacking an email. -/
def pairNoEmail : List ContactRecord :=
  [⟨some "Ana", none, some "12345678"⟩, ⟨some "Bob", none, some "87654321"⟩]

/-- Two distinct contacts both lacking a phone. -/
def pairNoPhone : List ContactRecord :=
  [⟨some "Ana", some "ana@x.io", none⟩, ⟨some "Bob", some "bob@x.io", none⟩]

/-- Fixture for C2: duplicate non-absent email `a@x.io`, and a second distinct
email `b@x.io` whose record shares its phone with the first record. -/
def c2Input : List ContactRecord :=
  [⟨some "Ana", some "a@x.io", some "12345678"⟩,
   ⟨none, some "a@x.io", none⟩,
   ⟨none, some "b@x.io", some "12345678"⟩]

/-- Fixture for C6: column `a` (first in column order) is content-scored 3,
column `contact` (second) is dictionary-scored 3 — a tie at the maximum. -/
def c6Table : Table :=
  ⟨[("a", [some "John Smith", some "Mary Jones"]),
    ("contact", [some "x", some "y"])]⟩

/-- Fixture for C8's witness: a single email column. -/
def c8Table : Table :=
  ⟨[("email", [some "a@b"])]⟩

/-- Fixture for C10's witness: a phone-labelled column whose cells are all
absent. -/
def c10Table : Table :=
  ⟨[("telefone", [none, none])]⟩

/-! ## Supporting lemmas: characters -/

lemma char_toNat_injective {a b : Char} (h : a.toNat = b.toNat) : a = b := by
  have h2 := congrArg Char.ofNat h
  rwa [Char.ofNat_toNat, Char.ofNat_toNat] at h2

lemma toNat_ofNat_valid (n : Nat) (h : n < 55296) : (Char.ofNat n).toNat = n := by
  unfold Char.ofNat
  rw [dif_pos (Or.inl h)]
  rfl

lemma le_char_iff_toNat {a c : Char} : a ≤ c ↔ a.toNat ≤ c.toNat := by
  rw [Char.le_def]
  constructor
  · intro h; exact h
  · intro h; exact h

lemma upper_range {c : Char} (h1 : 'A' ≤ c) (h2 : c ≤ 'Z') :
    65 ≤ c.toNat ∧ c.toNat ≤ 90 :=
  ⟨le_char_iff_toNat.mp h1, le_char_iff_toNat.mp h2⟩

lemma toNat_pyToLower_upper {c : Char} (h1 : 'A' ≤ c) (h2 : c ≤ 'Z') :
    (pyToLower c).toNat = c.toNat + 32 := by
  rw [pyToLower, if_pos ⟨h1, h2⟩]
  have hz : c.toNat ≤ 90 := (upper_range h1 h2).2
  exact toNat_ofNat_valid _ (by omega)

lemma pyToLower_of_not_upper {c : Char} (h : ¬('A' ≤ c ∧ c ≤ 'Z')) : pyToLower c = c := by
  rw [pyToLower, if_neg h]

lemma pyToLower_pyToLower (c : Char) : pyToLower (pyToLower c) = pyToLower c := by
  by_cases h : 'A' ≤ c ∧ c ≤ 'Z'
  · have hn := toNat_pyToLower_upper h.1 h.2
    have hr := upper_range h.1 h.2
    apply pyToLower_of_not_upper
    intro hcon
    have h2 := le_char_iff_toNat.mp hcon.1
    have h3 := le_char_iff_toNat.mp hcon.2
    have ha : ('A' : Char).toNat = 65 := by decide
    have hz : ('Z' : Char).toNat = 90 := by decide
    omega
  · rw [pyToLower_of_not_upper h]
    exact pyToLower_of_not_upper h

lemma pyToLower_eq_at_iff (c : Char) : pyToLower c = '@' ↔ c = '@' := by
  constructor
  · intro h
    by_cases hu : 'A' ≤ c ∧ c ≤ 'Z'
    · exfalso
      have hn := toNat_pyToLower_upper hu.1 hu.2
      have hr := upper_range hu.1 hu.2
      have h64 : (pyToLower c).toNat = ('@' : Char).toNat := congrArg Char.toNat h
      have hat : ('@' : Char).toNat = 64 := by decide
      omega
    · rwa [pyToLower_of_not_upper hu] at h
  · rintro rfl
    rfl

lemma pyIsSpace_iff_toNat (c : Char) :
    pyIsSpace c = true ↔
      c.toNat = 32 ∨ c.toNat = 9 ∨ c.toNat = 10 ∨ c.toNat = 13
        ∨ c.toNat = 11 ∨ c.toNat = 12 := by
  constructor
  · intro h
    rcases Bool.or_eq_true_iff.mp h with h | h
    on_goal 1 => rcases Bool.or_eq_true_iff.mp h with h | h
    on_goal 1 => rcases Bool.or_eq_true_iff.mp h with h | h
    on_goal 1 => rcases Bool.or_eq_true_iff.mp h with h | h
    on_goal 1 => rcases Bool.or_eq_true_iff.mp h with h | h
    all_goals simp only [decide_eq_true_eq] at h
    all_goals subst h
    · exact Or.inl (by decide)
    · exact Or.inr (Or.inl (by decide))
    · exact Or.inr (Or.inr (Or.inl (by decide)))
    · exact Or.inr (Or.inr (Or.inr (Or.inl (by decide))))
    · exact Or.inr (Or.inr (Or.inr (Or.inr (Or.inl (by decide)))))
    · exact Or.inr (Or.inr (Or.inr (Or.inr (Or.inr (by decide)))))
  · intro h
    have he : c = ' ' ∨ c = '\t' ∨ c = '\n' ∨ c = '\r' ∨ c = '\x0b' ∨ c = '\x0c' := by
      rcases h with h | h | h | h | h | h
      · exact Or.inl (char_toNat_injective (by rw [h]; rfl))
      · exact Or.inr (Or.inl (char_toNat_injective (by rw [h]; rfl)))
      · exact Or.inr (Or.inr (Or.inl (char_toNat_injective (by rw [h]; rfl))))
      · exact Or.inr (Or.inr (Or.inr (Or.inl (char_toNat_injective (by rw [h]; rfl)))))
      · exact Or.inr (Or.inr (Or.inr (Or.inr (Or.inl (char_toNat_injective (by rw [h]; rfl))))))
      · exact Or.inr (Or.inr (Or.inr (Or.inr (Or.inr (char_toNat_injective (by rw [h]; rfl))))))
    rcases he with h | h | h | h | h | h
    all_goals subst h
    all_goals decide

lemma pyIsSpace_pyToLower (c : Char) : pyIsSpace (pyToLower c) = pyIsSpace c := by
  by_cases h : 'A' ≤ c ∧ c ≤ 'Z'
  · have hn := toNat_pyToLower_upper h.1 h.2
    have hr := upper_range h.1 h.2
    have hL : pyIsSpace (pyToLower c) = false := by
      rw [Bool.eq_false_iff]
      intro hT
      rcases (pyIsSpace_iff_toNat _).mp hT with h' | h' | h' | h' | h' | h' <;> omega
    have hR : pyIsSpace c = false := by
      rw [Bool.eq_false_iff]
      intro hT
      rcases (pyIsSpace_iff_toNat _).mp hT with h' | h' | h' | h' | h' | h' <;> omega
    rw [hL, hR]
  · rw [pyToLower_of_not_upper h]

/-! ## Supporting lemmas: strings -/

lemma pyLower_pyLower (l : List Char) : pyLower (pyLower l) = pyLower l := by
  simp only [pyLower, List.map_map]
  exact List.map_congr_left (fun c _ => pyToLower_pyToLower c)

lemma mem_at_pyLower {l : List Char} : '@' ∈ pyLower l ↔ '@' ∈ l := by
  simp only [pyLower, List.mem_map]
  constructor
  · rintro ⟨c, hc, he⟩
    rwa [(pyToLower_eq_at_iff c).mp he] at hc
  · intro h
    exact ⟨'@', h, rfl⟩

lemma pyStrip_subset {l : List Char} : pyStrip l ⊆ l := by
  intro c hc
  have h1 := (List.rdropWhile_prefix pyIsSpace (l.dropWhile pyIsSpace)).subset hc
  exact (List.dropWhile_suffix pyIsSpace).subset h1

lemma dropWhile_cons_self {p : Char → Bool} {a : Char} {x : List Char}
    (h : List.dropWhile p (a :: x) = a :: x) : p a = false := by
  by_contra hcon
  have hpa : p a = true := by
    cases hb : p a
    · exact absurd hb hcon
    · rfl
  rw [List.dropWhile_cons, hpa] at h
  simp only [if_true] at h
  have hlen := (List.dropWhile_sublist (l := x) p).length_le
  have hc := congrArg List.length h
  simp only [List.length_cons] at hc
  omega

lemma dropWhile_rdropWhile_fixed {p : Char → Bool} {u : List Char}
    (hu : u.dropWhile p = u) : (u.rdropWhile p).dropWhile p = u.rdropWhile p := by
  rcases hw : u.rdropWhile p with _ | ⟨a, w⟩
  · rfl
  · obtain ⟨t, ht⟩ := List.rdropWhile_prefix p u
    rw [hw] at ht
    have hu2 : u = a :: (w ++ t) := by rw [← ht]; rfl
    have hpa : p a = false := dropWhile_cons_self (x := w ++ t) (by rw [← hu2]; exact hu)
    rw [List.dropWhile_cons, hpa]
    simp

lemma pyStrip_pyStrip (l : List Char) : pyStrip (pyStrip l) = pyStrip l := by
  show pyStrip ((l.dropWhile pyIsSpace).rdropWhile pyIsSpace)
    = (l.dropWhile pyIsSpace).rdropWhile pyIsSpace
  rw [pyStrip, dropWhile_rdropWhile_fixed (List.dropWhile_idempotent pyIsSpace l),
    List.rdropWhile_idempotent]

lemma dropWhile_pyLower (l : List Char) :
    (pyLower l).dropWhile pyIsSpace = pyLower (l.dropWhile pyIsSpace) := by
  rw [pyLower, List.dropWhile_map]
  rw [show (pyIsSpace ∘ pyToLower) = pyIsSpace from funext pyIsSpace_pyToLower]
  rfl

lemma rdropWhile_pyLower (l : List Char) :
    (pyLower l).rdropWhile pyIsSpace = pyLower (l.rdropWhile pyIsSpace) := by
  rw [List.rdropWhile, List.rdropWhile, pyLower, ← List.map_reverse, List.dropWhile_map,
    ← List.map_reverse]
  rw [show (pyIsSpace ∘ pyToLower) = pyIsSpace from funext pyIsSpace_pyToLower]
  rfl

lemma pyStrip_pyLower (l : List Char) : pyStrip (pyLower l) = pyLower (pyStrip l) := by
  rw [pyStrip, pyStrip, dropWhile_pyLower, rdropWhile_pyLower]

/-! ## Claim C4: phone normalization -/

lemma normalize_phone_eq (s : String) :
    normalize_phone (some s) =
      if 8 ≤ (s.data.filter Char.isDigit).length ∧ (s.data.filter Char.isDigit).length ≤ 15 then
        some ⟨(if s.data.head? = some '+' then ['+'] else []) ++ s.data.filter Char.isDigit⟩
      else none := by
  simp only [normalize_phone]
  by_cases hc : 8 ≤ (s.data.filter Char.isDigit).length
      ∧ (s.data.filter Char.isDigit).length ≤ 15
  · have hb : ((s.data.filter Char.isDigit).length < 8
        || (s.data.filter Char.isDigit).length > 15) = false := by
      simp only [Bool.or_eq_false_iff, decide_eq_false_iff_not]
      omega
    rw [hb, if_pos hc]
    simp only [Bool.false_eq_true, if_false]
    by_cases hp : s.data.head? = some '+'
    · rw [if_pos hp, if_pos hp]
      rfl
    · rw [if_neg hp, if_neg hp]
      rfl
  · have hb : ((s.data.filter Char.isDigit).length < 8
        || (s.data.filter Char.isDigit).length > 15) = true := by
      simp only [Bool.or_eq_true_iff, decide_eq_true_eq]
      omega
    rw [hb, if_neg hc]
    simp

/-- Claim C4: phone normalization rejects unless the digit count lies in [8,15];
when accepted the result is exactly the digit characters in order, `+`-prefixed
iff the original starts with `+`; only the digit sequence and the leading `+`
determine the result, and a digits-only string of length outside [8,15] is
rejected. -/
theorem C4_normalize_phone_digit_gate :
    (∀ s : String,
      normalize_phone (some s) =
        if 8 ≤ (s.data.filter Char.isDigit).length
            ∧ (s.data.filter Char.isDigit).length ≤ 15 then
          some ⟨(if s.data.head? = some '+' then ['+'] else []) ++ s.data.filter Char.isDigit⟩
        else none)
    ∧ (∀ s t : String, s.data.filter Char.isDigit = t.data.filter Char.isDigit →
        ((s.data.head? = some '+') ↔ (t.data.head? = some '+')) →
        normalize_phone (some s) = normalize_phone (some t))
    ∧ (∀ s : String, (∀ c ∈ s.data, c.isDigit) →
        s.data.length < 8 ∨ 15 < s.data.length → normalize_phone (some s) = none) := by
  refine ⟨normalize_phone_eq, ?_, ?_⟩
  · intro s t hf hp
    rw [normalize_phone_eq, normalize_phone_eq, hf]
    by_cases h : t.data.head? = some '+'
    · rw [if_pos h, if_pos (hp.mpr h)]
    · rw [if_neg h, if_neg (fun hc => h (hp.mp hc))]
  · intro s hd hout
    have hself : s.data.filter Char.isDigit = s.data :=
      List.filter_eq_self.mpr (fun c hc => hd c hc)
    rw [normalize_phone_eq, hself, if_neg (by omega)]

/-- Witness for C4 at concrete inputs: a separator-laden `+` number equals its
separator-free form, and a 4-digit string is rejected. -/
theorem C4_witness :
    normalize_phone (some "+55 11 9124-5678") = normalize_phone (some "+551191245678")
    ∧ normalize_phone (some "1234") = none :=
  ⟨C4_normalize_phone_digit_gate.2.1 "+55 11 9124-5678" "+551191245678"
      (by decide) (by decide),
   C4_normalize_phone_digit_gate.2.2 "1234" (by decide) (Or.inl (by decide))⟩

/-! ## Claim C5: email normalization -/

lemma normalize_email_of_fixed (d : List Char) (hlow : pyLower d = d)
    (hstrip : pyStrip d = d) (hat : '@' ∈ d) :
    normalize_email (some ⟨d⟩) = some ⟨d⟩ := by
  simp only [normalize_email]
  rw [hlow, hstrip, if_pos hat]

/-- Claim C5: email normalization is idempotent — an already lowercase, trimmed
value containing `@` is returned unchanged, any accepted output is a fixed
point, and a value without `@` is rejected. -/
theorem C5_normalize_email_idempotent :
    (∀ s : String, pyLower s.data = s.data → pyStrip s.data = s.data → '@' ∈ s.data →
      normalize_email (some s) = some s)
    ∧ (∀ s : String, '@' ∉ s.data → normalize_email (some s) = none)
    ∧ (∀ s t : String, normalize_email (some s) = some t →
        normalize_email (some t) = some t) := by
  refine ⟨?_, ?_, ?_⟩
  · intro s hlow hstrip hat
    rcases s with ⟨d⟩
    exact normalize_email_of_fixed d hlow hstrip hat
  · intro s hat
    simp only [normalize_email]
    rw [if_neg]
    intro hmem
    exact hat (mem_at_pyLower.mp (pyStrip_subset hmem))
  · intro s t h
    simp only [normalize_email] at h
    by_cases hat : '@' ∈ pyStrip (pyLower s.data)
    · rw [if_pos hat] at h
      have ht : t = ⟨pyStrip (pyLower s.data)⟩ := (Option.some.inj h).symm
      subst ht
      apply normalize_email_of_fixed
      · rw [← pyStrip_pyLower, pyLower_pyLower]
      · exact pyStrip_pyStrip _
      · exact hat
    · rw [if_neg hat] at h
      exact absurd h (by simp)

/-- Witness for C5 at concrete inputs: a canonical address is a fixed point and
an address-free string is rejected. -/
theorem C5_witness :
    normalize_email (some "ana@x.io") = some "ana@x.io"
    ∧ normalize_email (some "no email here") = none :=
  ⟨C5_normalize_email_idempotent.1 "ana@x.io" (by decide) (by decide) (by decide),
   C5_normalize_email_idempotent.2.1 "no email here" (by decide)⟩

/-! ## Claim C7: phone merging takes the first successful normalization -/

lemma normalize_phone_some_ne_nil {v : Option String} {p : String}
    (h : normalize_phone v = some p) : p.data ≠ [] := by
  cases v with
  | none => exact absurd h (by simp [normalize_phone])
  | some s =>
    rw [normalize_phone_eq] at h
    by_cases hc : 8 ≤ (s.data.filter Char.isDigit).length
        ∧ (s.data.filter Char.isDigit).length ≤ 15
    · rw [if_pos hc] at h
      have hp : p.data = (if s.data.head? = some '+' then ['+'] else [])
          ++ s.data.filter Char.isDigit := by
        rw [← Option.some.inj h]
      intro hnil
      rw [hnil] at hp
      have hlen := congrArg List.length hp
      simp only [List.length_nil, List.length_append] at hlen
      omega
    · rw [if_neg hc] at h
      exact absurd h (by simp)

lemma merge_step_eq (row : String → Option String) (phones : List String) (col : String) :
    mergeStep row phones col = phones ++ (normalize_phone (row col)).toList := by
  rw [mergeStep]
  cases hrc : row col with
  | none => simp [normalize_phone]
  | some v =>
    cases hn : normalize_phone (some v) with
    | none => simp [hn]
    | some p =>
      have hne : p.data.isEmpty = false := by
        rcases hx : p.data with _ | _
        · exact absurd hx (normalize_phone_some_ne_nil hn)
        · rfl
      simp [hn, hne]

lemma foldl_append_toList (f : String → Option String) (cols : List String) :
    ∀ acc, cols.foldl (fun a c => a ++ (f c).toList) acc = acc ++ cols.filterMap f := by
  induction cols with
  | nil => intro acc; simp
  | cons c l ih =>
    intro acc
    rw [List.foldl_cons, ih, List.filterMap_cons]
    cases hc : f c <;> simp [Option.toList]

lemma head?_filterMap_find? (f : String → Option String) (cols : List String) :
    (cols.filterMap f).head? = (cols.find? (fun c => (f c).isSome)).bind f := by
  induction cols with
  | nil => rfl
  | cons c l ih =>
    rw [List.filterMap_cons]
    cases hc : f c with
    | none =>
      have hp : (fun c => (f c).isSome) c = false := by simp [hc]
      rw [List.find?_cons_of_neg _ (by simp [hc])]
      exact ih
    | some p =>
      rw [List.find?_cons_of_pos _ (by simp [hc])]
      simp [hc]

/-- Claim C7: for every row and ordered candidate list, the merged phone equals the
normalization of the first candidate whose cell normalizes successfully
(absent when none does); later candidates never influence the result. -/
theorem C7_merge_phone_first_success (row : String → Option String)
    (phone_cols : List String) :
    merge_phone_numbers row phone_cols =
      (phone_cols.find? (fun c => (normalize_phone (row c)).isSome)).bind
        (fun c => normalize_phone (row c)) := by
  rw [merge_phone_numbers,
    show mergeStep row = (fun a c => a ++ (normalize_phone (row c)).toList) from
      funext fun a => funext fun c => merge_step_eq row a c,
    foldl_append_toList, List.nil_append, head?_filterMap_find?]

/-! ## Claim C9: empty input is the only no-output condition -/

/-- Claim C9: the engine produces no output exactly when the input file list is
empty. -/
theorem C9_no_input_no_output (tables : List Table) :
    process_csvs tables = none ↔ tables = [] := by
  cases tables <;> simp [process_csvs]

/-! ## Claim C1: the dedup passes collapse records on absent keys -/

/-- Claim C1, evaluated at the failing input: pandas `drop_duplicates` treats
NaN keys as equal, so two distinct contacts both lacking an email are
collapsed by the email pass, and two distinct contacts both lacking a phone
are collapsed by the phone pass — absence acts as a matching key, contrary to
the claim. -/
theorem C1_absent_keys_do_collapse :
    dedupContacts pairNoEmail = [⟨some "Ana", none, some "12345678"⟩]
    ∧ dedupContacts pairNoPhone = [⟨some "Ana", some "ana@x.io", none⟩] := by
  exact ⟨by decide, by decide⟩

/-! ## Claim C3: the name-likeness classification -/

/-- Counterexample for claim C3: the single-character value `"A"` satisfies every
rejection condition listed by the claim (non-absent, 1 token, ratio 1 ≥ 70%,
no digit) and its composite score is `7 > 3.5`, yet the code classifies it as
not name-like (the claim omits the minimum-length-2 rejection of line 56). -/
theorem C3_counterexample :
    is_likely_name (some "A") = false
    ∧ pyStrip "A".data ≠ []
    ∧ 1 ≤ tokenCount (pyStrip "A".data) ∧ tokenCount (pyStrip "A".data) ≤ 6
    ∧ (7 : ℚ)/10 ≤ (letterSpaceCount (pyStrip "A".data) : ℚ) / ((pyStrip "A".data).length : ℚ)
    ∧ digitCharCount (pyStrip "A".data) = 0
    ∧ nameHeuristicScore "A" > 7/2 :=
  ⟨by decide, by decide, by decide, by decide, by with_unfolding_all decide, by decide,
   by with_unfolding_all decide⟩

lemma neitherCount_eq_of_no_digit {vs : List Char} (hd : vs.countP Char.isDigit = 0) :
    (neitherCount vs : ℚ) = ((vs.length - vs.countP (fun c => c.isAlpha || pyIsSpace c)
      - vs.countP Char.isDigit : Nat) : ℚ) := by
  have hnod : ∀ c ∈ vs, c.isDigit = false := by
    intro c hc
    by_contra hcon
    have hct : c.isDigit = true := by
      cases hb : c.isDigit
      · exact absurd hb hcon
      · rfl
    have := List.countP_eq_zero.mp hd c hc
    rw [hct] at this
    exact absurd this (by simp)
  have hcong : neitherCount vs = vs.countP (fun c => !(c.isAlpha || pyIsSpace c)) := by
    rw [neitherCount]
    apply List.countP_congr
    intro c hc
    rw [hnod c hc]
    simp
  have hsplit := List.length_eq_countP_add_countP (fun c => c.isAlpha || pyIsSpace c) (l := vs)
  have hsame : vs.countP (fun c => decide ¬(c.isAlpha || pyIsSpace c) = true)
      = vs.countP (fun c => !(c.isAlpha || pyIsSpace c)) := by
    apply List.countP_congr
    intro c _
    cases hb : (c.isAlpha || pyIsSpace c) <;> simp [hb]
  rw [hsame] at hsplit
  have hle := List.countP_le_length (fun c => c.isAlpha || pyIsSpace c) (l := vs)
  have hnat : vs.countP (fun c => !(c.isAlpha || pyIsSpace c))
      = vs.length - vs.countP (fun c => c.isAlpha || pyIsSpace c)
        - vs.countP Char.isDigit := by omega
  rw [hcong, hnat]

/-- Claim C3 (amended): for a non-absent value whose stripped form has at least two
characters, between 1 and 6 whitespace tokens, a letter-or-space ratio of at
least 70%, and no digit, the code classifies it name-like iff the composite
score `5·ratio + 2·[caps] + 1·[2-4 tokens] − 0.5·special` exceeds 3.5; a value
failing any rejection condition — absent/empty, fewer than two characters,
token count outside [1,6], ratio below 70%, or any digit — is never
name-like.  (The claim as frozen omits the fewer-than-two-characters
rejection.) -/
theorem C3_is_likely_name_amended (s : String) :
    (pyStrip s.data ≠ [] → 2 ≤ (pyStrip s.data).length →
      1 ≤ tokenCount (pyStrip s.data) → tokenCount (pyStrip s.data) ≤ 6 →
      (7 : ℚ)/10 ≤ (letterSpaceCount (pyStrip s.data) : ℚ) / ((pyStrip s.data).length : ℚ) →
      digitCharCount (pyStrip s.data) = 0 →
      (is_likely_name (some s) = true ↔ nameHeuristicScore s > 7/2))
    ∧ (pyStrip s.data = [] ∨ (pyStrip s.data).length < 2
        ∨ tokenCount (pyStrip s.data) < 1 ∨ 6 < tokenCount (pyStrip s.data)
        ∨ (letterSpaceCount (pyStrip s.data) : ℚ) / ((pyStrip s.data).length : ℚ) < 7/10
        ∨ 0 < digitCharCount (pyStrip s.data) →
      is_likely_name (some s) = false) := by
  constructor
  · intro hne hlen htok1 htok6 hfrac hdig
    simp only [is_likely_name]
    rw [show (pyStrip s.data).isEmpty = false from by
      cases hx : pyStrip s.data
      · exact absurd hx hne
      · rfl]
    simp only [Bool.false_eq_true, if_false]
    rw [show (decide ((pySplit (pyStrip s.data)).length > 6)
        || decide ((pySplit (pyStrip s.data)).length < 1)) = false from by
      simp only [Bool.or_eq_false_iff, decide_eq_false_iff_not]
      simp only [tokenCount] at htok1 htok6
      omega]
    simp only [Bool.false_eq_true, if_false]
    rw [if_neg (show ¬((pyStrip s.data).length < 2) from by omega)]
    rw [if_neg (show ¬(((pyStrip s.data).countP (fun c => c.isAlpha || pyIsSpace c) : ℚ)
        / ((pyStrip s.data).length : ℚ) < 7/10) from by
      simp only [letterSpaceCount] at hfrac
      exact not_lt.mpr hfrac)]
    rw [if_neg (show ¬((pyStrip s.data).countP Char.isDigit > 0) from by
      simp only [digitCharCount] at hdig
      omega)]
    rw [decide_eq_true_eq]
    simp only [digitCharCount] at hdig
    have hkey := neitherCount_eq_of_no_digit hdig
    rw [nameHeuristicScore]
    constructor
    · intro h
      rw [show allTokensCapitalized (pyStrip s.data)
          = (pySplit (pyStrip s.data)).all
              (fun w => match w with | c :: _ => c.isUpper | [] => true) from rfl,
        show tokenCount (pyStrip s.data) = (pySplit (pyStrip s.data)).length from rfl]
      rw [show letterSpaceCount (pyStrip s.data)
          = (pyStrip s.data).countP (fun c => c.isAlpha || pyIsSpace c) from rfl]
      linarith [h, hkey]
    · intro h
      rw [show allTokensCapitalized (pyStrip s.data)
          = (pySplit (pyStrip s.data)).all
              (fun w => match w with | c :: _ => c.isUpper | [] => true) from rfl,
        show tokenCount (pyStrip s.data) = (pySplit (pyStrip s.data)).length from rfl] at h
      rw [show letterSpaceCount (pyStrip s.data)
          = (pyStrip s.data).countP (fun c => c.isAlpha || pyIsSpace c) from rfl] at h
      linarith [h, hkey]
  · intro hrej
    simp only [is_likely_name]
    rcases hx : (pyStrip s.data).isEmpty with _ | _
    case true => simp
    simp only [Bool.false_eq_true, if_false]
    have hne : pyStrip s.data ≠ [] := by
      intro hcon
      rw [hcon] at hx
      exact absurd hx (by simp)
    by_cases hwc : (decide ((pySplit (pyStrip s.data)).length > 6)
        || decide ((pySplit (pyStrip s.data)).length < 1)) = true
    · rw [hwc]
      simp
    · rw [show (decide ((pySplit (pyStrip s.data)).length > 6)
          || decide ((pySplit (pyStrip s.data)).length < 1)) = false from by
        cases hb : (decide ((pySplit (pyStrip s.data)).length > 6)
            || decide ((pySplit (pyStrip s.data)).length < 1))
        · rfl
        · exact absurd hb hwc]
      simp only [Bool.false_eq_true, if_false]
      simp only [Bool.or_eq_true_iff, decide_eq_true_eq, not_or] at hwc
      by_cases hl2 : (pyStrip s.data).length < 2
      · rw [if_pos hl2]
      · rw [if_neg hl2]
        by_cases hfr : ((pyStrip s.data).countP (fun c => c.isAlpha || pyIsSpace c) : ℚ)
            / ((pyStrip s.data).length : ℚ) < 7/10
        · rw [if_pos hfr]
        · rw [if_neg hfr]
          by_cases hdg : (pyStrip s.data).countP Char.isDigit > 0
          · rw [if_pos hdg]
          · exfalso
            simp only [tokenCount, letterSpaceCount, digitCharCount] at hrej
            rcases hrej with h | h | h | h | h | h
            · exact hne h
            · exact hl2 h
            · omega
            · omega
            · exact hfr h
            · exact hdg h

/-- Witness for C3's amended theorem at `"John Smith"`: the hypotheses hold
and the classification agrees with the composite score. -/
theorem C3_witness :
    is_likely_name (some "John Smith") = true ↔ nameHeuristicScore "John Smith" > 7/2 :=
  (C3_is_likely_name_amended "John Smith").1 (by decide) (by decide) (by decide)
    (by decide) (by with_unfolding_all decide) (by decide)

/-! ## Claim C8: all-absent rows never enter the contact set -/

/-- Claim C8: every row whose extracted name, email, and phone are all absent is
dropped by the per-file filter, so no all-absent record ever enters the
accumulated contact set. -/
theorem C8_all_absent_rows_dropped (tables : List Table) (r : ContactRecord)
    (hr : r ∈ allContacts tables) :
    ¬(r.name = none ∧ r.email = none ∧ r.phone = none) := by
  rintro ⟨hn, he, hp⟩
  rw [allContacts, List.mem_flatten] at hr
  obtain ⟨l, hl, hrl⟩ := hr
  rw [List.mem_map] at hl
  obtain ⟨t, _, rfl⟩ := hl
  simp only [processFile] at hrl
  rw [List.mem_filter] at hrl
  have hcond := hrl.2
  rw [hn, he, hp] at hcond
  simp at hcond

/-- Witness for C8: the single record extracted from the one-column email
table is not all-absent. -/
theorem C8_witness :
    ¬((⟨none, some "a@b", none⟩ : ContactRecord).name = none
      ∧ (⟨none, some "a@b", none⟩ : ContactRecord).email = none
      ∧ (⟨none, some "a@b", none⟩ : ContactRecord).phone = none) :=
  C8_all_absent_rows_dropped [c8Table] ⟨none, some "a@b", none⟩
    (by with_unfolding_all decide)

/-! ## Claim C10: a phone-labelled column with all cells absent is a candidate -/

lemma phone_patterns_weights : ∀ pw ∈ phone_patterns, (1 : ℚ) ≤ pw.2 ∧ (3 : ℚ) ≤ pw.2 := by
  decide

lemma phoneNameScore_foldl_mono (cl : List Char) (L : List (String × ℚ)) :
    ∀ (sc : ℚ), (∀ pw ∈ L, (1 : ℚ) ≤ pw.2) →
      sc ≤ L.foldl (fun score pw =>
        if pw.1.data = cl then score + pw.2
        else if isSubstr pw.1.data cl then score + (pw.2 - 1)
        else score) sc := by
  induction L with
  | nil => intro sc _; simp
  | cons pw rest ih =>
    intro sc hw
    rw [List.foldl_cons]
    have h1 : (1 : ℚ) ≤ pw.2 := hw pw (by simp)
    have hrest : ∀ q ∈ rest, (1 : ℚ) ≤ q.2 := fun q hq => hw q (by simp [hq])
    by_cases he : pw.1.data = cl
    · rw [if_pos he]
      calc sc ≤ sc + pw.2 := by linarith
        _ ≤ _ := ih _ hrest
    · rw [if_neg he]
      by_cases hs : isSubstr pw.1.data cl = true
      · rw [if_pos hs]
        calc sc ≤ sc + (pw.2 - 1) := by linarith
          _ ≤ _ := ih _ hrest
      · rw [if_neg hs]
        exact ih _ hrest

lemma phoneNameScore_foldl_hit (cl : List Char) (L : List (String × ℚ)) :
    ∀ (sc : ℚ), (∀ pw ∈ L, (1 : ℚ) ≤ pw.2 ∧ (3 : ℚ) ≤ pw.2) →
      (∃ pw ∈ L, pw.1.data = cl ∨ isSubstr pw.1.data cl = true) →
      sc + 2 ≤ L.foldl (fun score pw =>
        if pw.1.data = cl then score + pw.2
        else if isSubstr pw.1.data cl then score + (pw.2 - 1)
        else score) sc := by
  induction L with
  | nil =>
    intro sc _ hex
    obtain ⟨pw, hpw, _⟩ := hex
    exact absurd hpw (by simp)
  | cons pw rest ih =>
    intro sc hw hex
    rw [List.foldl_cons]
    have hw1 : (1 : ℚ) ≤ pw.2 ∧ (3 : ℚ) ≤ pw.2 := hw pw (by simp)
    have hrest : ∀ q ∈ rest, (1 : ℚ) ≤ q.2 ∧ (3 : ℚ) ≤ q.2 := fun q hq => hw q (by simp [hq])
    have hrest1 : ∀ q ∈ rest, (1 : ℚ) ≤ q.2 := fun q hq => (hrest q hq).1
    obtain ⟨pw0, hpw0, hmatch⟩ := hex
    rcases List.mem_cons.mp hpw0 with rfl | hpw0rest
    · by_cases he : pw0.1.data = cl
      · rw [if_pos he]
        have := phoneNameScore_foldl_mono cl rest (sc + pw0.2) hrest1
        linarith [hw1.2]
      · rcases hmatch with hmatch | hmatch
        · exact absurd hmatch he
        · rw [if_neg he, if_pos hmatch]
          have := phoneNameScore_foldl_mono cl rest (sc + (pw0.2 - 1)) hrest1
          linarith [hw1.2]
    · by_cases he : pw.1.data = cl
      · rw [if_pos he]
        have := phoneNameScore_foldl_mono cl rest (sc + pw.2) hrest1
        have hih2 := ih (sc + pw.2) hrest ⟨pw0, hpw0rest, hmatch⟩
        linarith [hw1.1]
      · rw [if_neg he]
        by_cases hs : isSubstr pw.1.data cl = true
        · rw [if_pos hs]
          have hih2 := ih (sc + (pw.2 - 1)) hrest ⟨pw0, hpw0rest, hmatch⟩
          linarith [hw1.1]
        · rw [if_neg hs]
          exact ih sc hrest ⟨pw0, hpw0rest, hmatch⟩

lemma phoneColScore_pos_of_label_hit {col : String} {cells : List (Option String)}
    (hmatch : ∃ pw ∈ phone_patterns,
      pw.1.data = pyLower col.data ∨ isSubstr pw.1.data (pyLower col.data) = true)
    (habsent : cells.filterMap id = []) :
    0 < phoneColScore col cells := by
  have hcontent : phoneContentScore cells = 0 := by
    rw [phoneContentScore, habsent]
    simp
  rw [phoneColScore, hcontent, phoneNameScore]
  have hhit := phoneNameScore_foldl_hit (pyLower col.data) phone_patterns 0
    phone_patterns_weights hmatch
  linarith

lemma mem_foldl_scored_acc (step : List (String × ℚ) → String × List (Option String)
      → List (String × ℚ))
    (hstep : ∀ acc colPair x, x ∈ acc → x ∈ step acc colPair)
    (cols : List (String × List (Option String))) :
    ∀ acc x, x ∈ acc → x ∈ cols.foldl step acc := by
  induction cols with
  | nil => intro acc x hx; exact hx
  | cons c rest ih =>
    intro acc x hx
    rw [List.foldl_cons]
    exact ih _ x (hstep acc c x hx)

lemma mem_phoneScored_aux {col : String} {cells : List (Option String)}
    (hpos : 0 < phoneColScore col cells)
    (cols : List (String × List (Option String))) :
    ∀ (acc : List (String × ℚ)), (col, cells) ∈ cols →
      (col, phoneColScore col cells) ∈ cols.foldl (fun acc colPair =>
        if phoneColScore colPair.1 colPair.2 > 0 then
          acc ++ [(colPair.1, phoneColScore colPair.1 colPair.2)]
        else acc) acc := by
  have hstep : ∀ (acc : List (String × ℚ)) (colPair : String × List (Option String)) x,
      x ∈ acc →
      x ∈ (if phoneColScore colPair.1 colPair.2 > 0 then
        acc ++ [(colPair.1, phoneColScore colPair.1 colPair.2)] else acc) := by
    intro acc colPair x hx
    by_cases h : phoneColScore colPair.1 colPair.2 > 0
    · rw [if_pos h]; exact List.mem_append_left _ hx
    · rw [if_neg h]; exact hx
  induction cols with
  | nil =>
    intro acc h
    exact absurd h (by simp)
  | cons c rest ih =>
    intro acc hmem
    rw [List.foldl_cons]
    rcases List.mem_cons.mp hmem with heq | hrest
    · subst heq
      have hin : (col, phoneColScore col cells)
          ∈ (if phoneColScore col cells > 0 then
              acc ++ [(col, phoneColScore col cells)] else acc) := by
        rw [if_pos hpos]
        exact List.mem_append_right _ (by simp)
      exact mem_foldl_scored_acc _ hstep rest _ _ hin
    · exact ih _ hrest

lemma mem_phoneScored {t : Table} {col : String} {cells : List (Option String)}
    (hmem : (col, cells) ∈ t.cols) (hpos : 0 < phoneColScore col cells) :
    (col, phoneColScore col cells) ∈ phoneScored t := by
  rw [phoneScored]
  exact mem_phoneScored_aux hpos t.cols [] hmem

/-- Claim C10: a column whose lowercased header matches a phone-dictionary label
(exactly or as a substring) is a ranked phone candidate even when every cell
of the column is absent — its positive header score alone keeps it, because
an empty non-absent sample contributes neither content score nor consistency
bonus. -/
theorem C10_phone_label_all_absent_candidate (t : Table) (col : String)
    (cells : List (Option String)) (hmem : (col, cells) ∈ t.cols)
    (hmatch : ∃ pw ∈ phone_patterns,
      pw.1.data = pyLower col.data ∨ isSubstr pw.1.data (pyLower col.data) = true)
    (habsent : ∀ v ∈ cells, v = none) :
    col ∈ find_phone_columns t := by
  have hfm : cells.filterMap id = [] := by
    rw [List.filterMap_eq_nil_iff]
    intro v hv
    rw [habsent v hv]
    rfl
  have hpos := phoneColScore_pos_of_label_hit hmatch hfm
  have hin := mem_phoneScored hmem hpos
  rw [find_phone_columns, List.mem_map]
  exact ⟨(col, phoneColScore col cells),
    (List.perm_insertionSort _ _).mem_iff.mpr hin, rfl⟩

/-- Witness for C10: the all-absent `telefone` column is selected as a phone
candidate. -/
theorem C10_witness : "telefone" ∈ find_phone_columns c10Table :=
  C10_phone_label_all_absent_candidate c10Table "telefone" [none, none] (by decide)
    ⟨("telefone", 5), by decide, Or.inl (by decide)⟩ (by decide)

/-! ## Claim C6: name-column selection and its tie order -/

lemma mem_of_firstmax {L : List (String × ℚ)} {m p : String × ℚ}
    (h : FirstMax L m) (hp : p ∈ L) : p.2 ≤ m.2 := by
  obtain ⟨l₁, l₂, heq, hlt, hle⟩ := h
  rw [heq] at hp
  rcases List.mem_append.mp hp with h1 | h2
  · exact le_of_lt (hlt p h1)
  · rcases List.mem_cons.mp h2 with rfl | h3
    · exact le_refl _
    · exact hle p h3

lemma foldl_max_firstmax (xs : List (String × ℚ)) :
    ∀ (x : String × ℚ),
      FirstMax (x :: xs) (xs.foldl (fun best y => if y.2 > best.2 then y else best) x) := by
  induction xs with
  | nil =>
    intro x
    exact ⟨[], [], rfl, by simp, by simp⟩
  | cons y ys ih =>
    intro x
    rw [List.foldl_cons]
    by_cases h : y.2 > x.2
    · rw [if_pos h]
      obtain ⟨l₁, l₂, heq, hlt, hle⟩ := ih y
      have hy : y.2 ≤ (ys.foldl (fun best y => if y.2 > best.2 then y else best) y).2 :=
        mem_of_firstmax ⟨l₁, l₂, heq, hlt, hle⟩ (by simp)
      refine ⟨x :: l₁, l₂, ?_, ?_, hle⟩
      · rw [List.cons_append, ← heq]
      · intro p hp
        rcases List.mem_cons.mp hp with rfl | hp2
        · linarith
        · exact hlt p hp2
    · rw [if_neg h]
      obtain ⟨l₁, l₂, heq, hlt, hle⟩ := ih x
      cases l₁ with
      | nil =>
        simp only [List.nil_append] at heq
        have hx : x = ys.foldl (fun best y => if y.2 > best.2 then y else best) x :=
          (List.cons.injEq _ _ _ _ ▸ heq).1
        have hys : ys = l₂ := (List.cons.injEq _ _ _ _ ▸ heq).2
        refine ⟨[], y :: ys, ?_, by simp, ?_⟩
        · rw [List.nil_append, ← hx]
        · intro p hp
          rcases List.mem_cons.mp hp with rfl | hp2
          · rw [← hx]
            linarith [not_lt.mp h]
          · rw [hys] at hp2
            exact hle p hp2
      | cons a l₁x =>
        rw [List.cons_append] at heq
        have hax : a = x := ((List.cons.injEq _ _ _ _ ▸ heq).1).symm
        have hys : ys = l₁x ++ (ys.foldl (fun best y => if y.2 > best.2 then y else best) x) :: l₂ :=
          (List.cons.injEq _ _ _ _ ▸ heq).2
        have hxlt : x.2 < (ys.foldl (fun best y => if y.2 > best.2 then y else best) x).2 := by
          have := hlt a (by simp)
          rwa [hax] at this
        refine ⟨x :: y :: l₁x, l₂, ?_, ?_, hle⟩
        · rw [List.cons_append, List.cons_append, ← hys]
        · intro p hp
          rcases List.mem_cons.mp hp with rfl | hp2
          · exact hxlt
          · rcases List.mem_cons.mp hp2 with rfl | hp3
            · linarith [not_lt.mp h]
            · exact hlt p (List.mem_cons_of_mem a hp3)

lemma maxByFirst_none_iff (L : List (String × ℚ)) : maxByFirst L = none ↔ L = [] := by
  cases L <;> simp [maxByFirst]

lemma maxByFirst_firstmax {L : List (String × ℚ)} {m : String × ℚ}
    (h : maxByFirst L = some m) : FirstMax L m := by
  cases L with
  | nil => exact absurd h (by simp [maxByFirst])
  | cons x xs =>
    rw [maxByFirst] at h
    rw [← Option.some.inj h]
    exact foldl_max_firstmax xs x

lemma foldl_app_extends {α β : Type} (step : List α → β → List α)
    (hstep : ∀ acc c, ∃ ext, step acc c = acc ++ ext) (cols : List β) :
    ∀ acc, ∃ rest, cols.foldl step acc = acc ++ rest := by
  induction cols with
  | nil => intro acc; exact ⟨[], by simp⟩
  | cons c l ih =>
    intro acc
    obtain ⟨e, he⟩ := hstep acc c
    obtain ⟨rest, hr⟩ := ih (acc ++ e)
    exact ⟨e ++ rest, by rw [List.foldl_cons, he, hr, List.append_assoc]⟩

lemma foldl_all_inv {α β : Type} (P : α → Prop) (step : List α → β → List α)
    (hstep : ∀ acc c x, (∀ y ∈ acc, P y) → x ∈ step acc c → P x) (cols : List β) :
    ∀ acc, (∀ y ∈ acc, P y) → ∀ x ∈ cols.foldl step acc, P x := by
  induction cols with
  | nil => intro acc hacc x hx; exact hacc x hx
  | cons c l ih =>
    intro acc hacc x hx
    rw [List.foldl_cons] at hx
    exact ih (step acc c) (fun y hy => hstep acc c y hacc hy) x hx

lemma name_patterns_pos : ∀ pw ∈ name_patterns, (0 : ℚ) < pw.2 := by decide

lemma analyze_column_names_pos (columns : List String) :
    ∀ p ∈ analyze_column_names columns, 0 < p.2 := by
  rw [analyze_column_names]
  refine foldl_all_inv (fun p : String × ℚ => 0 < p.2) _ ?_ columns [] (by simp)
  intro acc col x hacc hx
  rcases hfind : name_patterns.find? (fun pw => pw.1.data = pyStrip (pyLower col.data)) with
    _ | pw
  · simp only [hfind] at hx
    by_cases hsc : (0 : ℚ) < name_patterns.foldl
        (fun m pw => if isSubstr pw.1.data (pyStrip (pyLower col.data)) then
          max m (pw.2 - 1) else m) 0
    · rw [if_pos hsc] at hx
      rcases List.mem_append.mp hx with h1 | h2
      · exact hacc x h1
      · rw [List.mem_singleton.mp h2]
        exact hsc
    · rw [if_neg hsc] at hx
      exact hacc x hx
  · simp only [hfind] at hx
    rcases List.mem_append.mp hx with h1 | h2
    · exact hacc x h1
    · rw [List.mem_singleton.mp h2]
      exact name_patterns_pos pw (List.mem_of_find?_eq_some hfind)

lemma nameScores_pos (t : Table) : ∀ p ∈ nameScores t, 0 < p.2 := by
  rw [nameScores]
  refine foldl_all_inv (fun p : String × ℚ => 0 < p.2) _ ?_ t.cols _ (analyze_column_names_pos _)
  intro acc colPair x hacc hx
  by_cases h1 : acc.any (fun p => p.1 = colPair.1)
  · simp only [h1, if_true] at hx
    exact hacc x hx
  · simp only [eq_false h1, if_false] at hx
    by_cases h2 : ((colPair.2.filterMap id).take 100).length > 0
    · rw [if_pos h2] at hx
      by_cases h3 : ((((colPair.2.filterMap id).take 100).countP
            (fun v => is_likely_name (some v)) : ℚ)
          / (((colPair.2.filterMap id).take 100).length : ℚ)) > 7/10
      · rw [if_pos h3] at hx
        rcases List.mem_append.mp hx with ha | hb
        · exact hacc x ha
        · rw [List.mem_singleton.mp hb]
          show (0 : ℚ) < 3 * _
          linarith
      · rw [if_neg h3] at hx
        exact hacc x hx
    · rw [if_neg h2] at hx
      exact hacc x hx

/-- Claim C6 (amended): name-column selection returns `none` iff no column receives
a positive score; otherwise it returns the first maximum of the scored-column
list, whose order is the dictionary-scored columns (in column order) followed
by the content-scored columns (in column order) — not the original column
order, as the counterexample shows. -/
theorem C6_find_name_column_first_max (t : Table) :
    (find_name_column t = none ↔ nameScores t = [])
    ∧ (∀ c, find_name_column t = some c → ∃ q, FirstMax (nameScores t) (c, q))
    ∧ (∃ rest, nameScores t = analyze_column_names (t.cols.map (fun p => p.1)) ++ rest)
    ∧ (∀ p ∈ nameScores t, 0 < p.2) := by
  refine ⟨?_, ?_, ?_, nameScores_pos t⟩
  · rw [find_name_column]
    rw [Option.map_eq_none']
    exact maxByFirst_none_iff _
  · intro c hc
    rw [find_name_column] at hc
    rcases hm : maxByFirst (nameScores t) with _ | m
    · rw [hm] at hc
      exact absurd hc (by simp)
    · rw [hm] at hc
      simp only [Option.map_some'] at hc
      have hc2 : m.1 = c := Option.some.inj hc
      subst hc2
      exact ⟨m.2, by rw [Prod.mk.eta]; exact maxByFirst_firstmax hm⟩
  · rw [nameScores]
    apply foldl_app_extends
    intro acc colPair
    by_cases h1 : acc.any (fun p => p.1 = colPair.1)
    · exact ⟨[], by simp [h1]⟩
    · by_cases h2 : ((colPair.2.filterMap id).take 100).length > 0
      · by_cases h3 : ((((colPair.2.filterMap id).take 100).countP
              (fun v => is_likely_name (some v)) : ℚ)
            / (((colPair.2.filterMap id).take 100).length : ℚ)) > 7/10
        · refine ⟨[(colPair.1, 3 * ((((colPair.2.filterMap id).take 100).countP
              (fun v => is_likely_name (some v)) : ℚ)
            / (((colPair.2.filterMap id).take 100).length : ℚ)))], ?_⟩
          simp only [eq_false h1, if_false, if_pos h2, if_pos h3]
        · exact ⟨[], by simp only [eq_false h1, if_false, if_pos h2, if_neg h3,
            List.append_nil]⟩
      · exact ⟨[], by simp only [eq_false h1, if_false, if_neg h2, List.append_nil]⟩

/-- Counterexample for claim C6: in `c6Table` the first column `a` is content-scored 3
and the second column `contact` is dictionary-scored 3 — a tie at the maximum
— yet selection returns `contact`, not the first column in original order,
because dictionary-scored columns precede content-scored ones in the scored
list. -/
theorem C6_counterexample :
    c6Table.cols.map (fun p => p.1) = ["a", "contact"]
    ∧ nameScores c6Table = [("contact", 3), ("a", 3)]
    ∧ find_name_column c6Table = some "contact" := by
  refine ⟨rfl, ?_, ?_⟩ <;> with_unfolding_all decide

/-- Witness for C6's theorem at `c6Table`: the selected column `contact` is
the first maximum of the scored list. -/
theorem C6_witness : ∃ q, FirstMax (nameScores c6Table) ("contact", q) :=
  (C6_find_name_column_first_max c6Table).2.1 "contact" (by with_unfolding_all decide)

/-! ## Claim C2: the email deduplication pass -/

lemma dropDup_countP (key : ContactRecord → Option String) (k : Option String) :
    ∀ (l : List ContactRecord) (seen : List (Option String)),
      (dropDupByKeyAux key seen l).countP (fun r => decide (key r = k))
        = if k ∈ seen then 0
          else if l.any (fun r => decide (key r = k)) then 1 else 0 := by
  intro l
  induction l with
  | nil =>
    intro seen
    simp [dropDupByKeyAux]
  | cons r rs ih =>
    intro seen
    rw [dropDupByKeyAux]
    by_cases hm : key r ∈ seen
    · rw [if_pos hm, ih seen]
      by_cases hk : k ∈ seen
      · simp [hk]
      · rw [if_neg hk, if_neg hk]
        have hpr : (decide (key r = k)) = false := by
          simp only [decide_eq_false_iff_not]
          intro hcon
          rw [hcon] at hm
          exact hk hm
        rw [List.any_cons, hpr]
        simp
    · rw [if_neg hm, List.countP_cons, ih (key r :: seen)]
      by_cases hk : k ∈ seen
      · have hk2 : k ∈ key r :: seen := List.mem_cons_of_mem _ hk
        rw [if_pos hk2, if_pos hk]
        have hpr : (decide (key r = k)) = false := by
          simp only [decide_eq_false_iff_not]
          intro hcon
          rw [← hcon] at hk
          exact hm hk
        rw [hpr]
        simp
      · by_cases hke : key r = k
        · have hk2 : k ∈ key r :: seen := by rw [hke]; exact List.mem_cons_self _ _
          rw [if_pos hk2, if_neg hk]
          have hany : (r :: rs).any (fun r' => decide (key r' = k)) = true := by
            rw [List.any_cons]
            simp [hke]
          rw [hany]
          simp [hke]
        · have hk2 : k ∉ key r :: seen := by
            intro hcon
            rcases List.mem_cons.mp hcon with hcon2 | hcon2
            · exact hke hcon2.symm
            · exact hk hcon2
          rw [if_neg hk2, if_neg hk]
          have hpr : (decide (key r = k)) = false := by
            simp only [decide_eq_false_iff_not]
            exact hke
          rw [List.any_cons, hpr]
          simp

lemma dropDup_find? (key : ContactRecord → Option String) (k : Option String) :
    ∀ (l : List ContactRecord) (seen : List (Option String)), k ∉ seen →
      (dropDupByKeyAux key seen l).find? (fun r => decide (key r = k))
        = l.find? (fun r => decide (key r = k)) := by
  intro l
  induction l with
  | nil => intro seen _; rfl
  | cons r rs ih =>
    intro seen hk
    rw [dropDupByKeyAux]
    by_cases hm : key r ∈ seen
    · rw [if_pos hm, ih seen hk]
      have hpr : ¬(decide (key r = k)) = true := by
        simp only [decide_eq_true_eq]
        intro hcon
        rw [hcon] at hm
        exact hk hm
      exact (List.find?_cons_of_neg (p := fun r' => decide (key r' = k)) rs hpr).symm
    · rw [if_neg hm]
      by_cases hke : key r = k
      · rw [List.find?_cons_of_pos _ (by simp [hke]), List.find?_cons_of_pos _ (by simp [hke])]
      · rw [List.find?_cons_of_neg _ (by simp [hke]), List.find?_cons_of_neg _ (by simp [hke])]
        apply ih
        intro hcon
        rcases List.mem_cons.mp hcon with hcon2 | hcon2
        · exact hke hcon2.symm
        · exact hk hcon2

lemma countP_one_find? {α : Type} (p : α → Bool) :
    ∀ (l : List α) (r : α), l.countP p = 1 → r ∈ l → p r = true → l.find? p = some r := by
  intro l
  induction l with
  | nil => intro r _ h; exact absurd h (by simp)
  | cons a as ih =>
    intro r hc hr hp
    by_cases hpa : p a = true
    · rw [List.find?_cons_of_pos _ hpa]
      rw [List.countP_cons_of_pos _ _ hpa] at hc
      have hz : as.countP p = 0 := by omega
      rcases List.mem_cons.mp hr with rfl | hras
      · rfl
      · exfalso
        have := List.countP_eq_zero.mp hz r hras
        rw [hp] at this
        exact absurd this (by simp)
    · have hpa2 : p a = false := by
        cases hb : p a
        · rfl
        · exact absurd hb hpa
      rw [List.find?_cons_of_neg _ hpa]
      rw [List.countP_cons_of_neg _ _ (by simp [hpa2])] at hc
      rcases List.mem_cons.mp hr with rfl | hras
      · exact absurd hp hpa
      · exact ih r hc hras hp

lemma pairwise_find?_dom {α : Type} (R : α → α → Prop) (p : α → Bool) :
    ∀ (l : List α) (a : α), l.Pairwise R → l.find? p = some a →
      ∀ b ∈ l, p b = true → b = a ∨ R a b := by
  intro l
  induction l with
  | nil => intro a _ h; exact absurd h (by simp)
  | cons x xs ih =>
    intro a hpw hf b hb hpb
    rw [List.pairwise_cons] at hpw
    by_cases hpx : p x = true
    · rw [List.find?_cons_of_pos _ hpx] at hf
      have hax : x = a := Option.some.inj hf
      subst hax
      rcases List.mem_cons.mp hb with rfl | hbxs
      · exact Or.inl rfl
      · exact Or.inr (hpw.1 b hbxs)
    · rw [List.find?_cons_of_neg _ hpx] at hf
      rcases List.mem_cons.mp hb with rfl | hbxs
      · exact absurd hpb hpx
      · exact ih a hpw.2 hf b hbxs hpb

lemma sortByCompleteness_perm (l : List ContactRecord) : (sortByCompleteness l).Perm l :=
  List.perm_insertionSort _ l

lemma sortByCompleteness_sorted (l : List ContactRecord) :
    (sortByCompleteness l).Pairwise (fun a b => completeness b ≤ completeness a) := by
  rw [sortByCompleteness]
  haveI ht : IsTotal ContactRecord (fun a b => completeness b ≤ completeness a) :=
    ⟨fun a b => Nat.le_total (completeness b) (completeness a)⟩
  haveI htr : IsTrans ContactRecord (fun a b => completeness b ≤ completeness a) :=
    ⟨fun _ _ _ hab hbc => le_trans hbc hab⟩
  exact List.sorted_insertionSort _ l

/-- Claim C2 (amended): after the email deduplication pass (the first of the two
passes, before the phone pass) the result contains exactly one record per
distinct non-absent email value present in the input, and that record has
maximal completeness among the input records carrying that email.  (The claim
as frozen asserts this of the final output, which the phone pass can further
reduce — see the counterexample.) -/
theorem C2_email_pass_reduction (l : List ContactRecord) (e : String)
    (hpresent : ∃ r ∈ l, r.email = some e) :
    ((emailPass l).countP (fun r => decide (r.email = some e)) = 1)
    ∧ (∀ r ∈ emailPass l, r.email = some e →
        ∀ r2 ∈ l, r2.email = some e → completeness r2 ≤ completeness r) := by
  have hperm := sortByCompleteness_perm l
  have hany : (sortByCompleteness l).any (fun r => decide (r.email = some e)) = true := by
    rw [List.any_eq_true]
    obtain ⟨r, hr, he⟩ := hpresent
    exact ⟨r, hperm.mem_iff.mpr hr, by simp [he]⟩
  have hcount : (emailPass l).countP (fun r => decide (r.email = some e)) = 1 := by
    rw [emailPass, dropDupByKey, dropDup_countP (fun r => r.email) (some e)
      (sortByCompleteness l) [], if_neg (by simp), hany]
    simp
  refine ⟨hcount, ?_⟩
  intro r hr hre r2 hr2 hre2
  have hfind_out : (emailPass l).find? (fun r => decide (r.email = some e)) = some r :=
    countP_one_find? _ (emailPass l) r hcount hr (by simp [hre])
  have hfind_sorted : (sortByCompleteness l).find? (fun r => decide (r.email = some e))
      = some r := by
    rw [emailPass, dropDupByKey, dropDup_find? (fun r => r.email) (some e)
      (sortByCompleteness l) [] (by simp)] at hfind_out
    exact hfind_out
  have hdom := pairwise_find?_dom (fun a b => completeness b ≤ completeness a)
    (fun r => decide (r.email = some e)) (sortByCompleteness l) r
    (sortByCompleteness_sorted l) hfind_sorted r2 (hperm.mem_iff.mpr hr2) (by simp [hre2])
  rcases hdom with rfl | hR
  · exact le_refl _
  · exact hR

/-- Counterexample for claim C2: `c2Input` has duplicate non-absent email `a@x.io` and a
distinct non-absent email `b@x.io`, yet the final deduplicated output (after
the phone pass) contains no record with email `b@x.io` — the phone pass
removed it because it shared its phone with the `a@x.io` record, so the final
output does not contain one record per distinct non-absent email. -/
theorem C2_counterexample :
    (∃ r ∈ c2Input, r.email = some "a@x.io")
    ∧ (∃ r ∈ c2Input, r.email = some "b@x.io")
    ∧ c2Input.countP (fun r => decide (r.email = some "a@x.io")) = 2
    ∧ dedupContacts c2Input = [⟨some "Ana", some "a@x.io", some "12345678"⟩]
    ∧ (dedupContacts c2Input).countP (fun r => decide (r.email = some "b@x.io")) = 0 := by
  refine ⟨⟨⟨some "Ana", some "a@x.io", some "12345678"⟩, by decide, by decide⟩,
    ⟨⟨none, some "b@x.io", some "12345678"⟩, by decide, by decide⟩,
    by decide, by decide, by decide⟩

/-- Witness for C2's amended theorem at `c2Input` and email `a@x.io`. -/
theorem C2_witness :
    ((emailPass c2Input).countP (fun r => decide (r.email = some "a@x.io")) = 1)
    ∧ (∀ r ∈ emailPass c2Input, r.email = some "a@x.io" →
        ∀ r2 ∈ c2Input, r2.email = some "a@x.io" → completeness r2 ≤ completeness r) :=
  C2_email_pass_reduction c2Input "a@x.io"
    ⟨⟨some "Ana", some "a@x.io", some "12345678"⟩, by decide, by decide⟩

end LeadsUnifier
